import Mathlib

/-!
Verification of the Arbitrum/Stylus state-overlay fragment of this
go-ethereum fork (package `state` in `src/unnamed/part_000`).

The Go code is shallowly embedded: bytes are `Nat`s (values 0..255),
byte slices are `List Nat`, Go maps are association lists with distinct
keys, fallible functions return `Except`, and Go's pointer-valued fields
(`*lru.BasicLRU`, `*big.Int`) are modelled by explicit heaps of cells
addressed by `Nat` pointers so that aliasing and by-value receiver
semantics are captured faithfully.
-/

namespace GethStylus

/-- A content hash (`common.Hash`), opaque identifier. -/
abbrev Hash := Nat

/-- A compilation target (`rawdb.WasmTarget`), opaque identifier. -/
abbrev Target := Nat

/-- `StylusDiscriminant = []byte{0xEF, 0xF0, 0x00}` from the source. -/
def StylusDiscriminant : List Nat := [0xEF, 0xF0, 0x00]

/-- `IsStylusProgram` from the source:
`if len(b) < len(StylusDiscriminant)+1 { return false };
 return bytes.Equal(b[:3], StylusDiscriminant)`. -/
def IsStylusProgram (b : List Nat) : Bool :=
  if b.length < StylusDiscriminant.length + 1 then false
  else b.take 3 == StylusDiscriminant

/-- `StripStylusPrefix` from the source (renamed: header for prefix):
errors unless `IsStylusProgram`, else returns `(b[4:], b[3])`. -/
def StripStylusHeader (b : List Nat) : Except String (List Nat × Nat) :=
  if !IsStylusProgram b then
    Except.error "specified bytecode is not a Stylus program"
  else
    Except.ok (b.drop 4, b.getD 3 0)

/-- `NewStylusPrefix` from the source (renamed: header for prefix):
clones the discriminant and appends the dictionary byte. -/
def NewStylusHeader (dictionary : Nat) : List Nat :=
  StylusDiscriminant ++ [dictionary]

/-! ## Go maps as association lists

A Go `map` is modelled as an association list whose keys are distinct.
`lookupAL` is map indexing, `containsKey` the comma-ok test, and the
list length is the map length under the no-duplicate-keys invariant. -/

/-- Association-list lookup, modelling Go map indexing. -/
def lookupAL {β : Type} (m : List (Nat × β)) (k : Nat) : Option β :=
  match m with
  | [] => none
  | e :: rest => if e.1 = k then some e.2 else lookupAL rest k

/-- Comma-ok membership test on an association list. -/
def containsKey {β : Type} (m : List (Nat × β)) (k : Nat) : Bool :=
  m.any (fun e => e.1 == k)

/-- The key list of an association list (the Go map's key set). -/
def keysAL {β : Type} (m : List (Nat × β)) : List Nat :=
  m.map Prod.fst

/-- `ActivatedWasm`: map from compile target to assembly bytes. -/
abbrev ActivatedWasm := List (Target × List Nat)

/-- The consistency test of `StateDB.ActivateWasm` against one previously
activated bundle: `inconsistent := len(asmMap) != len(previouslyActivated)`,
then any target of the previous bundle missing from `asmMap`. -/
def inconsistentWith (previouslyActivated asmMap : ActivatedWasm) : Bool :=
  (asmMap.length != previouslyActivated.length)
    || previouslyActivated.any (fun e => !(containsKey asmMap e.1))

/-- Both bundles carry the same target (key) set, as a decidable test. -/
def sameTargetsB (a b : ActivatedWasm) : Bool :=
  a.all (fun e => containsKey b e.1) && b.all (fun e => containsKey a e.1)

/-- One journal entry kind is relevant here: `wasmActivation`, recording a
newly inserted module hash (its undo removes the key). -/
inductive JournalEntry where
  | wasmActivation (moduleHash : Hash)
deriving DecidableEq

/-- The slice of `StateDB` (with its `arbExtraData`) that the verified
operations touch: the in-flight activation layer, the journal, the
persistent-store fallback `db.ActivatedAsm`, the Stylus page counters and
the pointer to the unexpected-balance-delta big-int cell. -/
structure StateDB where
  activatedWasms : List (Hash × ActivatedWasm)
  journal : List JournalEntry
  dbActivatedAsm : Target → Hash → List Nat
  openWasmPages : Nat
  everWasmPages : Nat
  unexpectedBalanceDelta : Nat

/-- The representative consistency check at the top of `ActivateWasm`:
Go ranges over the in-flight map but breaks after the first entry; the
assoc list's head plays that representative's role. -/
def activationInconsistent (s : StateDB) (asmMap : ActivatedWasm) : Bool :=
  match s.activatedWasms.head? with
  | some e => inconsistentWith e.2 asmMap
  | none => false

/-- `StateDB.ActivateWasm` from the source: check target-set consistency
against a previously activated bundle (error, state untouched, on
mismatch); return success untouched if the hash is already present;
otherwise insert the bundle and append a `wasmActivation` journal entry. -/
def ActivateWasm (s : StateDB) (moduleHash : Hash) (asmMap : ActivatedWasm) :
    Except String Unit × StateDB :=
  if activationInconsistent s asmMap then
    (Except.error "inconsistent stylus compile targets", s)
  else if (lookupAL s.activatedWasms moduleHash).isSome then
    (Except.ok (), s)
  else
    (Except.ok (),
     { s with
        activatedWasms := s.activatedWasms ++ [(moduleHash, asmMap)],
        journal := s.journal ++ [JournalEntry.wasmActivation moduleHash] })

/-- `StateDB.ActivatedAsmMap` from the source. Result triple mirrors the
Go `(map, missingTargets, error)`: `none` is the nil map, `[]` the nil
slice, `none` the nil error. If the module has an in-flight bundle, the
first requested target missing from it aborts with a nil map, all
requested targets missing and an error; otherwise the in-flight bundle is
returned whole. With no in-flight bundle, each target falls back to
`db.ActivatedAsm`, partitioning into found and missing, with a nil error. -/
def ActivatedAsmMap (s : StateDB) (targets : List Target) (moduleHash : Hash) :
    Option ActivatedWasm × List Target × Option String :=
  match lookupAL s.activatedWasms moduleHash with
  | some asmMap =>
    match targets.find? (fun t => !(containsKey asmMap t)) with
    | some _ =>
      (none, targets,
       some "newly activated wasms for module exist but do not contain asm for a requested target")
    | none => (some asmMap, [], none)
  | none =>
    (some (targets.filterMap (fun t =>
        let asm := s.dbActivatedAsm t moduleHash
        if asm.length > 0 then some (t, asm) else none)),
     targets.filter (fun t => (s.dbActivatedAsm t moduleHash).length == 0),
     none)

/-! ## Stylus page counters -/

/-- Modelled from the spec: `common.SaturatingUAdd` is not under src;
§3 Page Counters use saturating unsigned 16-bit arithmetic, so the sum is
capped at the `uint16` maximum 65535 instead of wrapping. -/
def SaturatingUAdd (a b : Nat) : Nat :=
  min (a + b) 65535

/-- Modelled from the spec: `common.MaxInt` is not under src; it is the
larger of its two arguments (used for the ever-pages high-water mark). -/
def MaxInt (a b : Nat) : Nat :=
  max a b

/-- `StateDB.GetStylusPages` from the source. -/
def GetStylusPages (s : StateDB) : Nat × Nat :=
  (s.openWasmPages, s.everWasmPages)

/-- `StateDB.AddStylusPages` from the source: saturating-add the new
pages to the open counter, raise the ever counter to the new open value
if larger, and return the previous counts. -/
def AddStylusPages (s : StateDB) (n : Nat) : (Nat × Nat) × StateDB :=
  let prev := GetStylusPages s
  let newOpen := SaturatingUAdd prev.1 n
  (prev,
   { s with openWasmPages := newOpen, everWasmPages := MaxInt prev.2 newOpen })

/-! ## Per-account storage iteration (`forEachStorage`)

Storage keys and values (`common.Hash`) are byte lists here; the
preimage resolution `common.BytesToHash(s.trie.GetKey(itKey))` is an
abstract environment function over raw trie keys. -/

/-- Modelled from the spec: the `rlp` module is not under src; §6 says
storage-trie leaf values are length-prefixed encoded records whose
content bytes are the stored value. The first byte is the content
length; `rlp.Split` style, it errors when the input is too short. -/
def rlpSplitContent (b : List Nat) : Except String (List Nat) :=
  match b with
  | [] => Except.error "rlp: empty input"
  | n :: rest =>
    if n ≤ rest.length then Except.ok (rest.take n)
    else Except.error "rlp: value size exceeds available input length"

/-- The length-prefixed serialized form of a stored value (inverse of
`rlpSplitContent` on well-formed records). -/
def encodeStored (v : List Nat) : List Nat :=
  v.length :: v

/-- The loop body of `forEachStorage`, instrumented with the sequence of
callback invocations so visiting order and early termination are
observable. `dirty` is `so.dirtyStorage`, `getKey` resolves a raw trie
key to the storage key (`common.BytesToHash` composed with the trie
preimage lookup), `entries` the trie iterator's (key, value) pairs in
iteration order, `cb` the visitor. Dirty values win and are visited
once; otherwise a non-empty trie value is decoded and visited; a false
callback result stops iteration immediately with a nil error. -/
def forEachStorageLoop (dirty : List (List Nat × List Nat))
    (getKey : List Nat → List Nat)
    (entries : List (List Nat × List Nat))
    (cb : List Nat → List Nat → Bool) :
    Except String Unit × List (List Nat × List Nat) :=
  match entries with
  | [] => (Except.ok (), [])
  | (rk, rv) :: rest =>
    let key := getKey rk
    match dirty.find? (fun e => e.1 == key) with
    | some e =>
      if cb key e.2 then
        let r := forEachStorageLoop dirty getKey rest cb
        (r.1, (key, e.2) :: r.2)
      else (Except.ok (), [(key, e.2)])
    | none =>
      if rv.length > 0 then
        match rlpSplitContent rv with
        | Except.error msg => (Except.error msg, [])
        | Except.ok content =>
          if cb key content then
            let r := forEachStorageLoop dirty getKey rest cb
            (r.1, (key, content) :: r.2)
          else (Except.ok (), [(key, content)])
      else
        forEachStorageLoop dirty getKey rest cb

/-- The account-level data `forEachStorage` consumes: the dirty storage
overlay of the state object, and the opened storage trie (or the error
from opening it) as its iterator sequence plus key resolution. -/
structure AccountStorage where
  dirtyStorage : List (List Nat × List Nat)
  getKey : List Nat → List Nat
  trieEntries : List (List Nat × List Nat)

/-- `forEachStorage` from the source: a missing state object succeeds
visiting nothing; a failed trie open fails the whole call; otherwise the
merged iteration runs. The visited (key, value) pairs are returned next
to the Go result. -/
def forEachStorage (so : Option AccountStorage)
    (trieErr : Option String) (cb : List Nat → List Nat → Bool) :
    Except String Unit × List (List Nat × List Nat) :=
  match so with
  | none => (Except.ok (), [])
  | some a =>
    match trieErr with
    | some e => (Except.error e, [])
    | none => forEachStorageLoop a.dirtyStorage a.getKey a.trieEntries cb

/-! ## Recency cache (`RecentWasms` over `lru.BasicLRU`)

`RecentWasms` holds a `*lru.BasicLRU` pointer. To capture Go's pointer
aliasing and the by-value receiver of `Insert` and `Copy`, LRU caches
live in an explicit heap of cells and a `RecentWasms` value is an
optional cell index (`none` is the nil pointer). Mutations through the
pointer are visible to every alias; assigning the pointer field of a
by-value receiver is not visible to the caller. -/

/-- Modelled from the spec: `common/lru.BasicLRU` is not under src; §4.4
describes a fixed-capacity least-recently-used-eviction membership set.
`items` lists the cached hashes most-recently-used first. -/
structure BasicLRU where
  cap : Nat
  items : List Hash
deriving DecidableEq

/-- Modelled from the spec: `BasicLRU.Get` reports a hit and marks the
hash most recently used (moves it to the front). -/
def lruGet (c : BasicLRU) (x : Hash) : Bool × BasicLRU :=
  if x ∈ c.items then (true, { c with items := x :: c.items.erase x })
  else (false, c)

/-- Modelled from the spec: `BasicLRU.Add` on an absent key inserts it
most recently used and evicts the least recently used entry when the
capacity is exceeded. -/
def lruAdd (c : BasicLRU) (x : Hash) : BasicLRU :=
  let its := x :: c.items
  { c with items := if c.cap < its.length then its.dropLast else its }

/-- The heap of allocated `BasicLRU` cells. -/
abbrev LRUHeap := List BasicLRU

/-- A `RecentWasms` value: an optional pointer into the LRU heap
(`none` models the nil `cache` field). -/
abbrev RecentWasms := Option Nat

/-- `NewRecentWasms` from the source: an uninitialized cache. -/
def NewRecentWasms : RecentWasms := none

/-- The cell a pointer designates (`⟨0, []⟩` for dangling reads, which
no verified execution performs). -/
def cellAt (h : LRUHeap) (i : Nat) : BasicLRU :=
  h.getD i ⟨0, []⟩

/-- `RecentWasms.Insert` from the source, with Go's by-value receiver
semantics made explicit. The result is (hit, heap after the call,
the caller's `RecentWasms` value after the call). On a nil cache the
source allocates a `BasicLRU` and stores its address in the receiver
copy's field, so the allocation lands in the heap but the caller's
pointer stays nil; with a live pointer, `Get` then `Add` mutate the
pointed-to cell in place. -/
def Insert (h : LRUHeap) (p : RecentWasms) (item : Hash) (retain : Nat) :
    Bool × LRUHeap × RecentWasms :=
  match p with
  | none =>
    let cell0 : BasicLRU := ⟨retain, []⟩
    let cell1 := lruAdd cell0 item
    (false, h ++ [cell1], none)
  | some i =>
    match h.get? i with
    | none => (false, h, p)
    | some c =>
      let r := lruGet c item
      if r.1 then (true, h.set i r.2, p)
      else (false, h.set i (lruAdd r.2 item), p)

/-- `RecentWasms.Copy` from the source: a nil cache copies to
`NewRecentWasms`; otherwise a fresh cell is allocated carrying the same
capacity and entries (modelled from the spec at that granularity: the
source re-adds every key of the cache into a new `BasicLRU` of the same
capacity). -/
def Copy (h : LRUHeap) (p : RecentWasms) : LRUHeap × RecentWasms :=
  match p with
  | none => (h, NewRecentWasms)
  | some i =>
    match h.get? i with
    | none => (h, NewRecentWasms)
    | some c => (h ++ [⟨c.cap, c.items⟩], some h.length)

/-- Runs a sequence of `Insert` calls (item, retain) through the
caller-visible state, as repeated method calls on one variable would. -/
def insertMany : LRUHeap → RecentWasms → List (Hash × Nat) →
    LRUHeap × RecentWasms
  | h, p, [] => (h, p)
  | h, p, op :: ops =>
    let r := Insert h p op.1 op.2
    insertMany r.2.1 r.2.2 ops

/-- The membership a `RecentWasms` value observes: nothing through a nil
pointer, the pointed-to cell's items otherwise. -/
def memOf (h : LRUHeap) (p : RecentWasms) : List Hash :=
  match p with
  | none => []
  | some i => (cellAt h i).items

/-- The capacity a `RecentWasms` value observes. -/
def capOf (h : LRUHeap) (p : RecentWasms) : Option Nat :=
  match p with
  | none => none
  | some i => some (cellAt h i).cap

/-! ## Unexpected balance delta (`*big.Int` cell heap) -/

/-- The heap of allocated `big.Int` cells, addressed by index. -/
abbrev BigIntHeap := List Int

/-- `StateDB.GetUnexpectedBalanceDelta` from the source:
`new(big.Int).Set(s.arbExtraData.unexpectedBalanceDelta)` allocates a
fresh cell, copies the stored delta's value into it, and returns the
fresh pointer. -/
def GetUnexpectedBalanceDelta (h : BigIntHeap) (s : StateDB) :
    BigIntHeap × Nat :=
  (h ++ [h.getD s.unexpectedBalanceDelta 0], h.length)

/-- A `StateDB` with nothing in flight, an empty journal, an empty
persistent store and zeroed counters. -/
def freshStateDB : StateDB :=
  ⟨[], [], fun _ _ => [], 0, 0, 0⟩

/-! ## Theorems -/

/-- Claim C4, counterexample: the claim says every input of length 4 or
shorter is unmarked, but `IsStylusProgram` only rejects inputs shorter
than `len(StylusDiscriminant)+1 = 4` bytes, so the 4-byte blob
`EF F0 00 00` is reported marked. -/
theorem isStylusProgram_len4_marked :
    IsStylusProgram [0xEF, 0xF0, 0x00, 0x00] = true ∧
      ([0xEF, 0xF0, 0x00, 0x00] : List Nat).length < 5 := by
  decide

/-- Claim C4 (amended): `IsStylusProgram b` is true iff `b` is at least
4 bytes long and its first 3 bytes are `EF F0 00`; every input of length
3 or shorter is rejected regardless of content. -/
theorem isStylusProgram_iff (b : List Nat) :
    IsStylusProgram b = true ↔
      4 ≤ b.length ∧ b.take 3 = [0xEF, 0xF0, 0x00] := by
  simp only [IsStylusProgram, StylusDiscriminant, List.length_cons,
    List.length_nil]
  by_cases hlen : b.length < 3 + 1
  · simp only [if_pos hlen]
    constructor
    · intro h
      exact absurd h (by simp)
    · intro h
      omega
  · simp only [if_neg hlen, beq_iff_eq]
    constructor
    · intro h
      exact ⟨by omega, h⟩
    · intro h
      exact h.2

/-- Claim C5: stripping the header built from dictionary byte `d`
followed by any payload `p` succeeds and returns `(p, d)`. -/
theorem strip_newHeader_roundtrip (d : Nat) (p : List Nat) :
    StripStylusHeader (NewStylusHeader d ++ p) = Except.ok (p, d) := by
  simp [StripStylusHeader, NewStylusHeader, IsStylusProgram,
    StylusDiscriminant, List.getD]

/-- Claim C8: on a fresh counter pair, `AddStylusPages 3` then
`AddStylusPages 5` yields open = 8 and ever = 8; in general the open
counter becomes the saturating 16-bit sum (capped at 65535, never
wrapping), the ever counter becomes the maximum of its previous value
and the new open value, and the call returns the counts as they were
before it. -/
theorem addStylusPages_spec :
    (((AddStylusPages (AddStylusPages freshStateDB 3).2 5).2.openWasmPages = 8) ∧
      ((AddStylusPages (AddStylusPages freshStateDB 3).2 5).2.everWasmPages = 8)) ∧
    ∀ (s : StateDB) (n : Nat),
      (AddStylusPages s n).1 = (s.openWasmPages, s.everWasmPages) ∧
      (AddStylusPages s n).2.openWasmPages = min (s.openWasmPages + n) 65535 ∧
      (AddStylusPages s n).2.openWasmPages ≤ 65535 ∧
      (AddStylusPages s n).2.everWasmPages =
        max s.everWasmPages (AddStylusPages s n).2.openWasmPages := by
  refine ⟨⟨by decide, by decide⟩, fun s n => ⟨rfl, rfl, ?_, rfl⟩⟩
  exact Nat.min_le_right _ _

/-! ### Target-set consistency check (C1, C2) -/

theorem containsKey_iff_mem_keys {β : Type} (m : List (Nat × β)) (k : Nat) :
    containsKey m k = true ↔ k ∈ keysAL m := by
  simp [containsKey, keysAL, List.any_eq_true, beq_iff_eq, List.mem_map]

theorem length_keysAL {β : Type} (m : List (Nat × β)) :
    (keysAL m).length = m.length := by
  simp [keysAL]

/-- If the source's consistency test passes and the previous bundle's
keys are distinct, the two bundles carry the same target set. -/
theorem sameTargets_of_not_inconsistent (prev asmMap : ActivatedWasm)
    (hnd : (keysAL prev).Nodup)
    (hc : inconsistentWith prev asmMap = false) :
    sameTargetsB prev asmMap = true := by
  simp only [inconsistentWith, Bool.or_eq_false_iff, bne_eq_false_iff_eq,
    List.any_eq_false, Bool.not_eq_true] at hc
  obtain ⟨hlen, hsub⟩ := hc
  have hsub' : keysAL prev ⊆ keysAL asmMap := by
    intro k hk
    rw [keysAL, List.mem_map] at hk
    obtain ⟨e, he, hk⟩ := hk
    have := hsub e he
    simp only [Bool.not_eq_false'] at this
    rw [containsKey_iff_mem_keys] at this
    exact hk ▸ this
  have hperm : List.Perm (keysAL prev) (keysAL asmMap) := by
    refine (List.subperm_of_subset hnd hsub').perm_of_length_le ?_
    rw [length_keysAL, length_keysAL, hlen]
  simp only [sameTargetsB, Bool.and_eq_true, List.all_eq_true]
  refine ⟨fun e he => ?_, fun e he => ?_⟩
  · rw [containsKey_iff_mem_keys]
    exact hsub' (List.mem_map_of_mem Prod.fst he)
  · rw [containsKey_iff_mem_keys]
    exact hperm.mem_iff.mpr (List.mem_map_of_mem Prod.fst he)

/-- If the two bundles carry the same target set and both key lists are
distinct, the source's consistency test passes. -/
theorem not_inconsistent_of_sameTargets (prev asmMap : ActivatedWasm)
    (hndp : (keysAL prev).Nodup) (hnda : (keysAL asmMap).Nodup)
    (hs : sameTargetsB prev asmMap = true) :
    inconsistentWith prev asmMap = false := by
  simp only [sameTargetsB, Bool.and_eq_true, List.all_eq_true] at hs
  obtain ⟨h1, h2⟩ := hs
  have hsub1 : keysAL prev ⊆ keysAL asmMap := by
    intro k hk
    rw [keysAL, List.mem_map] at hk
    obtain ⟨e, he, hk⟩ := hk
    have := h1 e he
    rw [containsKey_iff_mem_keys] at this
    exact hk ▸ this
  have hsub2 : keysAL asmMap ⊆ keysAL prev := by
    intro k hk
    rw [keysAL, List.mem_map] at hk
    obtain ⟨e, he, hk⟩ := hk
    have := h2 e he
    rw [containsKey_iff_mem_keys] at this
    exact hk ▸ this
  have hperm : List.Perm (keysAL prev) (keysAL asmMap) :=
    (List.subperm_of_subset hndp hsub1).antisymm
      (List.subperm_of_subset hnda hsub2)
  have hlen : asmMap.length = prev.length := by
    rw [← length_keysAL, ← length_keysAL]
    exact hperm.length_eq.symm
  simp only [inconsistentWith, Bool.or_eq_false_iff, bne_eq_false_iff_eq,
    List.any_eq_false, Bool.not_eq_true]
  refine ⟨hlen, fun e he => ?_⟩
  simp only [Bool.not_eq_false']
  rw [containsKey_iff_mem_keys]
  exact hsub1 (List.mem_map_of_mem Prod.fst he)

/-- Claim C1: with at least one bundle in flight, an `ActivateWasm` call
whose bundle's target set differs from that of every present bundle
returns the consistency error and leaves the whole `StateDB` — in
particular the in-flight layer and the journal — exactly as it was. -/
theorem activateWasm_mismatch_rejected (s : StateDB) (mh : Hash)
    (bundle : ActivatedWasm)
    (hne : s.activatedWasms ≠ [])
    (hnodup : ∀ e ∈ s.activatedWasms, (keysAL e.2).Nodup)
    (hdiff : ∀ e ∈ s.activatedWasms, sameTargetsB e.2 bundle = false) :
    ActivateWasm s mh bundle =
      (Except.error "inconsistent stylus compile targets", s) := by
  obtain ⟨e0, rest, heq⟩ := List.exists_cons_of_ne_nil hne
  have hmem : e0 ∈ s.activatedWasms := by
    rw [heq]; exact List.mem_cons_self _ _
  have hinc : activationInconsistent s bundle = true := by
    unfold activationInconsistent
    rw [heq]
    simp only [List.head?_cons]
    by_contra hfalse
    rw [Bool.not_eq_true] at hfalse
    have := sameTargets_of_not_inconsistent e0.2 bundle (hnodup e0 hmem) hfalse
    rw [hdiff e0 hmem] at this
    exact Bool.false_ne_true this
  unfold ActivateWasm
  rw [hinc]
  rfl

/-- Claim C2, counterexample: the claim promises success for every
bundle argument once the hash is in flight, but the source runs the
target-set consistency check before the idempotency check: activating
hash 7 with the one-target bundle `{0 ↦ [1]}` and then again with the
two-target bundle `{0 ↦ [1], 1 ↦ [2]}` returns the consistency error,
not success. -/
theorem activateWasm_repeat_mismatch_errors :
    (ActivateWasm (ActivateWasm freshStateDB 7 [(0, [1])]).2 7
        [(0, [1]), (1, [2])]).1 =
      Except.error "inconsistent stylus compile targets" ∧
    (ActivateWasm (ActivateWasm freshStateDB 7 [(0, [1])]).2 7
        [(0, [1]), (1, [2])]).1 ≠ Except.ok () := by
  refine ⟨rfl, fun hc => ?_⟩
  exact Except.noConfusion (((rfl :
    (ActivateWasm (ActivateWasm freshStateDB 7 [(0, [1])]).2 7
        [(0, [1]), (1, [2])]).1 =
      Except.error "inconsistent stylus compile targets")) ▸ hc)

/-- Claim C2 (amended): once a hash is in flight, a further
`ActivateWasm` call for it whose bundle carries the same target set as
the bundles already in flight returns success and leaves the whole
`StateDB` — no insertion, no overwrite, no journal entry — unchanged. -/
theorem activateWasm_idempotent (s : StateDB) (mh : Hash)
    (bundle : ActivatedWasm)
    (hndb : (keysAL bundle).Nodup)
    (hnodup : ∀ e ∈ s.activatedWasms, (keysAL e.2).Nodup)
    (hsame : ∀ e ∈ s.activatedWasms, sameTargetsB e.2 bundle = true)
    (hpresent : (lookupAL s.activatedWasms mh).isSome) :
    ActivateWasm s mh bundle = (Except.ok (), s) := by
  have hinc : activationInconsistent s bundle = false := by
    unfold activationInconsistent
    cases hh : s.activatedWasms.head? with
    | none => rfl
    | some e =>
      have hmem : e ∈ s.activatedWasms := by
        cases hcase : s.activatedWasms with
        | nil => rw [hcase] at hh; exact absurd hh (by simp)
        | cons a rest =>
          rw [hcase] at hh
          simp only [List.head?_cons, Option.some.injEq] at hh
          rw [← hh]
          exact List.mem_cons_self _ _
      exact not_inconsistent_of_sameTargets e.2 bundle (hnodup e hmem) hndb
        (hsame e hmem)
  unfold ActivateWasm
  rw [hinc]
  simp only [Bool.false_eq_true, if_false, hpresent, if_pos]

/-- Claim C1 witness: a layer holding one bundle on target 0 rejects a
bundle on target 1, returning the state untouched. -/
theorem activateWasm_mismatch_rejected_witness :
    ActivateWasm ⟨[(5, [(0, [9])])], [], fun _ _ => [], 0, 0, 0⟩ 7 [(1, [8])] =
      (Except.error "inconsistent stylus compile targets",
       ⟨[(5, [(0, [9])])], [], fun _ _ => [], 0, 0, 0⟩) :=
  activateWasm_mismatch_rejected _ 7 [(1, [8])] (by decide) (by decide)
    (by decide)

/-- Claim C2 witness: re-activating an in-flight hash with a same-target
bundle succeeds and changes nothing. -/
theorem activateWasm_idempotent_witness :
    ActivateWasm
        ⟨[(7, [(0, [1])])], [JournalEntry.wasmActivation 7],
         fun _ _ => [], 0, 0, 0⟩ 7 [(0, [2])] =
      (Except.ok (),
       ⟨[(7, [(0, [1])])], [JournalEntry.wasmActivation 7],
        fun _ _ => [], 0, 0, 0⟩) :=
  activateWasm_idempotent _ 7 [(0, [2])] (by decide) (by decide) (by decide)
    (by decide)

/-- Claim C3: a module hash with an in-flight bundle answers a bulk
lookup containing a target absent from the bundle with a nil map, the
entire requested target list as missing, and an error; concretely, after
activating hash 9 with bundle `{0 ↦ [1], 1 ↦ [2]}`, requesting `[0, 1]`
returns the bundle with nothing missing and a nil error, while
requesting `[0, 2]` returns a nil map, `[0, 2]` missing, and an error. -/
theorem activatedAsmMap_incomplete_bundle :
    (∀ (s : StateDB) (m : ActivatedWasm) (mh : Hash)
        (targets : List Target) (t : Target),
      lookupAL s.activatedWasms mh = some m → t ∈ targets →
      containsKey m t = false →
      ActivatedAsmMap s targets mh =
        (none, targets,
         some "newly activated wasms for module exist but do not contain asm for a requested target")) ∧
    (ActivatedAsmMap (ActivateWasm freshStateDB 9 [(0, [1]), (1, [2])]).2
        [0, 1] 9 = (some [(0, [1]), (1, [2])], [], none) ∧
     ActivatedAsmMap (ActivateWasm freshStateDB 9 [(0, [1]), (1, [2])]).2
        [0, 2] 9 =
       (none, [0, 2],
        some "newly activated wasms for module exist but do not contain asm for a requested target")) := by
  refine ⟨fun s m mh targets t hlk hmem hmiss => ?_, by decide, by decide⟩
  cases hf : targets.find? (fun t => !(containsKey m t)) with
  | none =>
    rw [List.find?_eq_none] at hf
    have := hf t hmem
    rw [hmiss] at this
    exact absurd rfl this
  | some x =>
    simp [ActivatedAsmMap, hlk, hf]

/-- Claim C3 witness: the incomplete-bundle branch at a concrete state,
requesting target 2 which the in-flight bundle for hash 9 lacks. -/
theorem activatedAsmMap_incomplete_bundle_witness :
    ActivatedAsmMap ⟨[(9, [(0, [1]), (1, [2])])], [], fun _ _ => [], 0, 0, 0⟩
        [0, 2] 9 =
      (none, [0, 2],
       some "newly activated wasms for module exist but do not contain asm for a requested target") :=
  activatedAsmMap_incomplete_bundle.1 _ [(0, [1]), (1, [2])] 9 [0, 2] 2
    (by decide) (by decide) (by decide)

/-- Claim C6, failing evaluation: from the uninitialized cache, the
first `Insert` of hash 5 returns false and leaves the caller's cache
still nil, because the by-value receiver drops the lazily allocated
`BasicLRU`; hence the second `Insert` of the same hash also returns
false, where the claim (and the source's own doc comment, returning true
if already present) requires true. -/
theorem recentWasms_insert_lost_allocation :
    (Insert [] NewRecentWasms 5 2).1 = false ∧
    (Insert [] NewRecentWasms 5 2).2.2 = NewRecentWasms ∧
    (Insert (Insert [] NewRecentWasms 5 2).2.1
        (Insert [] NewRecentWasms 5 2).2.2 5 2).1 = false := by
  decide

/-- All visited storage pairs except possibly the last satisfied the
callback: a false callback result ends the visit sequence at once. -/
theorem forEachStorageLoop_early_stop (dirty : List (List Nat × List Nat))
    (gk : List Nat → List Nat) (entries : List (List Nat × List Nat))
    (cb : List Nat → List Nat → Bool) :
    ∀ (i : Nat) (k v : List Nat),
      i + 1 < (forEachStorageLoop dirty gk entries cb).2.length →
      (forEachStorageLoop dirty gk entries cb).2[i]? = some (k, v) →
      cb k v = true := by
  induction entries with
  | nil =>
    intro i k v hlt _
    simp [forEachStorageLoop] at hlt
  | cons e rest ih =>
    obtain ⟨rk, rv⟩ := e
    intro i k v hlt hget
    simp only [forEachStorageLoop] at hlt hget
    cases hfind : dirty.find? (fun e => e.1 == gk rk) with
    | some d =>
      by_cases hcb : cb (gk rk) d.2
      · simp only [hfind, if_pos hcb, List.length_cons] at hlt hget
        cases i with
        | zero =>
          simp only [List.getElem?_cons_zero, Option.some.injEq] at hget
          injection hget with h1 h2
          rw [← h1, ← h2]
          exact hcb
        | succ j =>
          simp only [List.getElem?_cons_succ] at hget
          exact ih j k v (by omega) hget
      · simp only [hfind, if_neg hcb] at hlt
        simp at hlt
    | none =>
      by_cases hlen : rv.length > 0
      · cases hsplit : rlpSplitContent rv with
        | error msg =>
          simp only [hfind, if_pos hlen, hsplit] at hlt
          simp at hlt
        | ok content =>
          by_cases hcb : cb (gk rk) content
          · simp only [hfind, if_pos hlen, hsplit, if_pos hcb,
              List.length_cons] at hlt hget
            cases i with
            | zero =>
              simp only [List.getElem?_cons_zero, Option.some.injEq] at hget
              injection hget with h1 h2
              rw [← h1, ← h2]
              exact hcb
            | succ j =>
              simp only [List.getElem?_cons_succ] at hget
              exact ih j k v (by omega) hget
          · simp only [hfind, if_pos hlen, hsplit, if_neg hcb] at hlt
            simp at hlt
      · simp only [hfind, if_neg hlen] at hlt hget
        exact ih i k v hlt hget

/-- Claim C7: on an account with dirty entry `k1 = [1] ↦ [0xAA]` and
persisted trie entries for `k1` (serialized `[0xBB]`) and `k2 = [2]`
(serialized `[0xCC]`), the iteration visits exactly `(k1, [0xAA])` — the
dirty value winning, visited once — and `(k2, [0xCC])` decoded from its
serialized form; a callback answering false at `k1` stops iteration at
once, so only `(k1, [0xAA])` is visited; and in general every visited
pair but the last satisfied the callback. -/
theorem forEachStorage_dirty_wins_and_stops :
    (forEachStorage
        (some ⟨[([1], [0xAA])], fun b => b,
               [([1], encodeStored [0xBB]), ([2], encodeStored [0xCC])]⟩)
        none (fun _ _ => true) =
      (Except.ok (), [([1], [0xAA]), ([2], [0xCC])])) ∧
    (forEachStorage
        (some ⟨[([1], [0xAA])], fun b => b,
               [([1], encodeStored [0xBB]), ([2], encodeStored [0xCC])]⟩)
        none (fun k _ => k != [1]) =
      (Except.ok (), [([1], [0xAA])])) ∧
    (∀ (dirty : List (List Nat × List Nat)) (gk : List Nat → List Nat)
        (entries : List (List Nat × List Nat))
        (cb : List Nat → List Nat → Bool) (i : Nat) (k v : List Nat),
      i + 1 < (forEachStorageLoop dirty gk entries cb).2.length →
      (forEachStorageLoop dirty gk entries cb).2[i]? = some (k, v) →
      cb k v = true) :=
  ⟨rfl, rfl, fun dirty gk entries cb => forEachStorageLoop_early_stop dirty gk entries cb⟩

/-- Claim C7 witness: the early-stop property at the concrete two-entry
account with a size-probing callback, instantiated at the first visited
pair. -/
theorem forEachStorage_dirty_wins_and_stops_witness :
    ((fun (_ v : List Nat) => v.length == 1) [1] [0xAA]) = true :=
  forEachStorage_dirty_wins_and_stops.2.2 [([1], [0xAA])] (fun b => b)
    [([1], encodeStored [0xBB]), ([2], encodeStored [0xCC])]
    (fun _ v => v.length == 1) 0 [1] [0xAA] (by decide) (by decide)

/-- Claim C10: reading the unexpected balance delta allocates a fresh
cell: the returned pointer differs from the stored one, carries an equal
value, mutating the returned cell leaves the stored delta unchanged, and
a second read on the unchanged state returns an equal value. -/
theorem getUnexpectedBalanceDelta_fresh_copy (h : BigIntHeap) (s : StateDB)
    (hv : s.unexpectedBalanceDelta < h.length) :
    (GetUnexpectedBalanceDelta h s).2 ≠ s.unexpectedBalanceDelta ∧
    (GetUnexpectedBalanceDelta h s).1.getD (GetUnexpectedBalanceDelta h s).2 0 =
      h.getD s.unexpectedBalanceDelta 0 ∧
    (∀ v : Int,
      ((GetUnexpectedBalanceDelta h s).1.set
          (GetUnexpectedBalanceDelta h s).2 v).getD
          s.unexpectedBalanceDelta 0 =
        h.getD s.unexpectedBalanceDelta 0) ∧
    ((GetUnexpectedBalanceDelta (GetUnexpectedBalanceDelta h s).1 s).1.getD
        (GetUnexpectedBalanceDelta (GetUnexpectedBalanceDelta h s).1 s).2 0 =
      (GetUnexpectedBalanceDelta h s).1.getD
        (GetUnexpectedBalanceDelta h s).2 0) := by
  unfold GetUnexpectedBalanceDelta
  refine ⟨by omega, ?_, fun v => ?_, ?_⟩
  · simp [List.getElem?_concat_length]
  · simp only [List.getD_eq_getElem?_getD]
    rw [List.getElem?_set_ne (by omega)]
    rw [List.getElem?_append_left hv]
  · simp only [List.getD_eq_getElem?_getD, List.getElem?_concat_length]
    rw [List.getElem?_append_left hv]

/-- Claim C10 witness: the fresh-copy behavior on the one-cell heap
`[5]` with the delta stored at cell 0. -/
theorem getUnexpectedBalanceDelta_fresh_copy_witness :
    (GetUnexpectedBalanceDelta [(5 : Int)] freshStateDB).2 ≠
        freshStateDB.unexpectedBalanceDelta ∧
    (GetUnexpectedBalanceDelta [(5 : Int)] freshStateDB).1.getD
        (GetUnexpectedBalanceDelta [(5 : Int)] freshStateDB).2 0 =
      ([(5 : Int)] : BigIntHeap).getD freshStateDB.unexpectedBalanceDelta 0 ∧
    (∀ v : Int,
      ((GetUnexpectedBalanceDelta [(5 : Int)] freshStateDB).1.set
          (GetUnexpectedBalanceDelta [(5 : Int)] freshStateDB).2 v).getD
          freshStateDB.unexpectedBalanceDelta 0 =
        ([(5 : Int)] : BigIntHeap).getD freshStateDB.unexpectedBalanceDelta 0) ∧
    ((GetUnexpectedBalanceDelta
        (GetUnexpectedBalanceDelta [(5 : Int)] freshStateDB).1 freshStateDB).1.getD
        (GetUnexpectedBalanceDelta
          (GetUnexpectedBalanceDelta [(5 : Int)] freshStateDB).1 freshStateDB).2 0 =
      (GetUnexpectedBalanceDelta [(5 : Int)] freshStateDB).1.getD
        (GetUnexpectedBalanceDelta [(5 : Int)] freshStateDB).2 0) :=
  getUnexpectedBalanceDelta_fresh_copy [(5 : Int)] freshStateDB (by decide)

/-! ### Recency-cache copy independence (C9) -/

/-- `Insert` never changes the caller's pointer: the nil branch stores
the allocation only in the receiver copy, the live branch mutates the
pointed-to cell in place. -/
theorem insert_pointer_preserved (h : LRUHeap) (p : RecentWasms) (x : Hash)
    (r : Nat) : (Insert h p x r).2.2 = p := by
  cases p with
  | none => rfl
  | some i =>
    simp only [Insert]
    cases hcell : h.get? i with
    | none => rfl
    | some c =>
      by_cases hhit : (lruGet c x).1
      · simp [hhit]
      · simp [hhit]

/-- `Insert` never shrinks the heap. -/
theorem insert_length_le (h : LRUHeap) (p : RecentWasms) (x : Hash)
    (r : Nat) : h.length ≤ (Insert h p x r).2.1.length := by
  cases p with
  | none => simp [Insert]
  | some i =>
    simp only [Insert]
    cases hcell : h.get? i with
    | none => exact Nat.le_refl _
    | some c =>
      by_cases hhit : (lruGet c x).1
      · simp [hhit]
      · simp [hhit]

/-- `Insert` through one pointer leaves every other cell untouched. -/
theorem insert_frame (h : LRUHeap) (p : RecentWasms) (x : Hash) (r : Nat)
    (j : Nat) (hj : j < h.length) (hne : p ≠ some j) :
    (Insert h p x r).2.1[j]? = h[j]? := by
  cases p with
  | none =>
    simp only [Insert]
    exact List.getElem?_append_left hj
  | some i =>
    have hij : i ≠ j := fun hc => hne (hc ▸ rfl)
    simp only [Insert]
    cases hcell : h.get? i with
    | none => rfl
    | some c =>
      by_cases hhit : (lruGet c x).1
      · simp [hhit, List.getElem?_set_ne hij]
      · simp [hhit, List.getElem?_set_ne hij]

/-- A sequence of `Insert` calls keeps the caller's pointer. -/
theorem insertMany_pointer (ops : List (Hash × Nat)) :
    ∀ (h : LRUHeap) (p : RecentWasms), (insertMany h p ops).2 = p := by
  induction ops with
  | nil => intro h p; rfl
  | cons op rest ih =>
    intro h p
    simp only [insertMany]
    rw [insert_pointer_preserved h p op.1 op.2, ih]

/-- A sequence of `Insert` calls through one pointer leaves every other
cell untouched. -/
theorem insertMany_frame (ops : List (Hash × Nat)) :
    ∀ (h : LRUHeap) (p : RecentWasms) (j : Nat), j < h.length →
      p ≠ some j → (insertMany h p ops).1[j]? = h[j]? := by
  induction ops with
  | nil => intro h p j _ _; rfl
  | cons op rest ih =>
    intro h p j hj hne
    simp only [insertMany]
    rw [insert_pointer_preserved h p op.1 op.2]
    rw [ih (Insert h p op.1 op.2).2.1 p j
      (Nat.lt_of_lt_of_le hj (insert_length_le h p op.1 op.2)) hne]
    exact insert_frame h p op.1 op.2 j hj hne

/-- Claim C9: `Copy` yields a cache with the source's capacity and
membership; afterwards, any sequence of `Insert` calls on the copy
leaves the source's membership unchanged, and any sequence of `Insert`
calls on the source leaves the copy's membership unchanged (the fresh
cell shares no mutable state with the source's cell). -/
theorem recentWasms_copy_independent (h : LRUHeap) (p : RecentWasms)
    (hvalid : ∀ i, p = some i → i < h.length) :
    capOf (Copy h p).1 (Copy h p).2 = capOf h p ∧
    memOf (Copy h p).1 (Copy h p).2 = memOf h p ∧
    memOf (Copy h p).1 p = memOf h p ∧
    (∀ ops, memOf (insertMany (Copy h p).1 (Copy h p).2 ops).1 p =
      memOf (Copy h p).1 p) ∧
    (∀ ops, memOf (insertMany (Copy h p).1 p ops).1 (Copy h p).2 =
      memOf (Copy h p).1 (Copy h p).2) := by
  cases p with
  | none => exact ⟨rfl, rfl, rfl, fun ops => rfl, fun ops => rfl⟩
  | some i =>
    have hi : i < h.length := hvalid i rfl
    have hc : h[i]? = some h[i] := List.getElem?_eq_getElem hi
    have hcopy : Copy h (some i) =
        (h ++ [⟨(h[i]).cap, (h[i]).items⟩], some h.length) := by
      simp only [Copy, List.get?_eq_getElem?, hc]
    rw [hcopy]
    have hne_len : i ≠ h.length := Nat.ne_of_lt hi
    have hfreshcell :
        (h ++ [⟨(h[i]).cap, (h[i]).items⟩])[h.length]? =
          some ⟨(h[i]).cap, (h[i]).items⟩ :=
      List.getElem?_concat_length _ _
    have hkeep : (h ++ [⟨(h[i]).cap, (h[i]).items⟩])[i]? = some h[i] := by
      rw [List.getElem?_append_left hi, hc]
    have hmem_src : memOf (h ++ [⟨(h[i]).cap, (h[i]).items⟩]) (some i) =
        (h[i]).items := by
      simp [memOf, cellAt, hkeep]
    refine ⟨?_, ?_, ?_, fun ops => ?_, fun ops => ?_⟩
    · simp [capOf, cellAt, hfreshcell, hc]
    · simp [memOf, cellAt, hfreshcell, hc]
    · simp [memOf, cellAt, hkeep, hc]
    · have := insertMany_frame ops (h ++ [⟨(h[i]).cap, (h[i]).items⟩])
        (some h.length) i
        (by simp only [List.length_append, List.length_cons, List.length_nil]
            omega)
        (fun hcon => hne_len (by injection hcon with hh; omega))
      simp [memOf, cellAt, this, hkeep]
    · have := insertMany_frame ops (h ++ [⟨(h[i]).cap, (h[i]).items⟩])
        (some i) h.length (by simp)
        (fun hcon => hne_len (by injection hcon))
      simp [memOf, cellAt, this, hfreshcell]

/-- Claim C9 witness: the one-cell heap holding a capacity-2 cache with
member 5; an insert of hash 9 on the copy leaves the source's
membership untouched. -/
theorem recentWasms_copy_independent_witness :
    memOf (insertMany (Copy [⟨2, [5]⟩] (some 0)).1
        (Copy [⟨2, [5]⟩] (some 0)).2 [(9, 2)]).1 (some 0) =
      memOf (Copy [⟨2, [5]⟩] (some 0)).1 (some 0) :=
  (recentWasms_copy_independent [⟨2, [5]⟩] (some 0)
    (fun i hi => by cases hi; decide)).2.2.2.1 [(9, 2)]

end GethStylus
